import Mathlib

/-!
Shallow embedding of the core of `src/main.rs` (an extended Rock-Paper-Scissors
match engine) and proofs of the specification claims about it.

The Rust `u32` counters are modelled as `Nat` (no claim involves wrap-around),
`Vec` as `List`, and the `HashMap`-based scoreboard as a function map.
Random choices (`rand::thread_rng`) and the unspecified `HashMap` iteration
order are modelled as explicit parameters, so every operation is a pure
function of its inputs.
-/

namespace RPS

/-- Mirror of `enum Move` (main.rs lines 145-152). -/
inductive Move where
  | Rock
  | Paper
  | Scissors
  | Lizard
  | Spock
deriving DecidableEq, Repr, Fintype, Inhabited

/-- Mirror of `enum Ruleset` (main.rs lines 115-119). -/
inductive Ruleset where
  | Classic
  | Extended
deriving DecidableEq, Repr, Fintype, Inhabited

/-- Mirror of `enum Difficulty` (main.rs lines 121-126). -/
inductive Difficulty where
  | Easy
  | Normal
  | Hard
deriving DecidableEq, Repr, Fintype, Inhabited

/-- Mirror of `enum MatchFormat` (main.rs lines 128-133); the `u32` payloads are `Nat`. -/
inductive MatchFormat where
  | SingleRound
  | BestOfN (n : Nat)
  | FirstToK (k : Nat)
deriving DecidableEq, Repr

/-- Mirror of `enum Mode` (main.rs lines 109-113). -/
inductive Mode where
  | SinglePlayer
  | Multiplayer
deriving DecidableEq, Repr

/-- Mirror of `enum RoundWinner` (main.rs lines 231-236). -/
inductive RoundWinner where
  | Player1
  | Player2
  | Tie
deriving DecidableEq, Repr, Fintype

/-- Mirror of `enum Turn` (main.rs lines 249-254). -/
inductive Turn where
  | WaitingP1
  | WaitingP2
  | Reveal
deriving DecidableEq, Repr

/-- Mirror of `struct GameConfig` (main.rs lines 135-143). -/
structure GameConfig where
  player1 : String
  player2 : String
  mode : Mode
  ruleset : Ruleset
  format : MatchFormat
  difficulty : Option Difficulty
deriving DecidableEq, Repr

/-- Mirror of `struct RoundRecord` (main.rs lines 223-229). -/
structure RoundRecord where
  round : Nat
  p1_move : Move
  p2_move : Move
  winner : RoundWinner
deriving DecidableEq, Repr

/-- Mirror of `struct MatchState` (main.rs lines 238-247). -/
structure MatchState where
  config : GameConfig
  round_number : Nat
  p1_round_wins : Nat
  p2_round_wins : Nat
  history : List RoundRecord
  human_recent : List Move
  turn : Turn
deriving DecidableEq, Repr

/-- Mirror of `Move::all_for_ruleset` (main.rs lines 165-176): the legal move set. -/
def Move.all_for_ruleset (r : Ruleset) : List Move :=
  match r with
  | .Classic => [Move.Rock, Move.Paper, Move.Scissors]
  | .Extended => [Move.Rock, Move.Paper, Move.Scissors, Move.Lizard, Move.Spock]

/-- Mirror of `classic_beats` (main.rs lines 1103-1108). -/
def classic_beats (a b : Move) : Bool :=
  match a, b with
  | .Rock, .Scissors => true
  | .Paper, .Rock => true
  | .Scissors, .Paper => true
  | _, _ => false

/-- Mirror of `extended_beats` (main.rs lines 1110-1124). -/
def extended_beats (a b : Move) : Bool :=
  match a, b with
  | .Rock, .Scissors => true
  | .Rock, .Lizard => true
  | .Paper, .Rock => true
  | .Paper, .Spock => true
  | .Scissors, .Paper => true
  | .Scissors, .Lizard => true
  | .Lizard, .Spock => true
  | .Lizard, .Paper => true
  | .Spock, .Scissors => true
  | .Spock, .Rock => true
  | _, _ => false

/-- The `match ruleset` dispatch inside `decide_winner` (main.rs lines 1091-1094),
factored out because `best_counter` (lines 1169-1172) repeats it verbatim. -/
def ruleset_beats (ruleset : Ruleset) (a b : Move) : Bool :=
  match ruleset with
  | .Classic => classic_beats a b
  | .Extended => extended_beats a b

/-- Mirror of `decide_winner` (main.rs lines 1086-1101). -/
def decide_winner (ruleset : Ruleset) (p1 p2 : Move) : RoundWinner :=
  if p1 = p2 then
    RoundWinner.Tie
  else
    let p1_wins := ruleset_beats ruleset p1 p2
    if p1_wins then RoundWinner.Player1 else RoundWinner.Player2

/-- Mirror of `MatchState::new` (main.rs lines 257-271). -/
def MatchState.new (config : GameConfig) : MatchState :=
  let turn := match config.mode with
    | .SinglePlayer => Turn.WaitingP1
    | .Multiplayer => Turn.WaitingP1
  { config := config
    round_number := 1
    p1_round_wins := 0
    p2_round_wins := 0
    history := []
    human_recent := []
    turn := turn }

/-- Mirror of `MatchState::reset_for_rematch` (main.rs lines 273-280). -/
def MatchState.reset_for_rematch (s : MatchState) : MatchState :=
  { s with
    round_number := 1
    p1_round_wins := 0
    p2_round_wins := 0
    history := []
    human_recent := []
    turn := Turn.WaitingP1 }

/-- Mirror of `apply_round` (main.rs lines 673-686): bump the winner's tally (nothing on
a tie) and append a `RoundRecord` carrying the current `round_number`. -/
def apply_round (state : MatchState) (p1 p2 : Move) (winner : RoundWinner) : MatchState :=
  let state' := match winner with
    | .Player1 => { state with p1_round_wins := state.p1_round_wins + 1 }
    | .Player2 => { state with p2_round_wins := state.p2_round_wins + 1 }
    | .Tie => state
  { state' with
    history := state'.history ++
      [{ round := state'.round_number, p1_move := p1, p2_move := p2, winner := winner }] }

/-- Mirror of `check_match_winner` (main.rs lines 1009-1032). -/
def check_match_winner (state : MatchState) : Option RoundWinner :=
  match state.config.format with
  | .SingleRound => state.history.getLast?.map (fun r => r.winner)
  | .BestOfN n =>
      let needed := n / 2 + 1
      if state.p1_round_wins ≥ needed then some RoundWinner.Player1
      else if state.p2_round_wins ≥ needed then some RoundWinner.Player2
      else none
  | .FirstToK k =>
      if state.p1_round_wins ≥ k then some RoundWinner.Player1
      else if state.p2_round_wins ≥ k then some RoundWinner.Player2
      else none

/-- One round of `run_match`'s loop (main.rs lines 583-597 / 648-667): the
spec's `advance_round`. The round is resolved with `decide_winner`, recorded
with `apply_round`, and — exactly as in `run_match`, where
`state.round_number += 1` runs only when `check_match_winner` returned `None`
and the loop continues — the round index is bumped for the next round. -/
def advance_round (state : MatchState) (p1 p2 : Move) : RoundWinner × MatchState :=
  let winner := decide_winner state.config.ruleset p1 p2
  let s' := apply_round state p1 p2 winner
  match check_match_winner s' with
  | some _ => (winner, s')
  | none => (winner, { s' with round_number := s'.round_number + 1 })

/-- Iterated rounds: fold `advance_round` over a list of move pairs. -/
def run_rounds (state : MatchState) : List (Move × Move) → MatchState
  | [] => state
  | (p1, p2) :: rest => run_rounds (advance_round state p1 p2).2 rest

/-- The number of `Tie` records in a match history, "derived by scanning
history" as the spec's tally invariant prescribes. -/
def tie_count (h : List RoundRecord) : Nat :=
  (h.filter (fun r => r.winner = RoundWinner.Tie)).length

/-- The explicit randomness / iteration-order environment for the opponent
policy. `roll` models `rand::thread_rng().gen_range(0..100)` in `ai_move`
(main.rs line 1139), `idx` the index drawn by `gen_range(0..list.len())` in
`random_from` (line 1154), and `ord` the unspecified iteration order of the
`HashMap` keys in `most_common` (line 1163) — a faithful instantiation of
`ord` lists the distinct elements of the scanned buffer, in some order. -/
structure Rand where
  roll : Nat
  idx : Nat
  ord : List Move
deriving DecidableEq, Repr

/-- Mirror of `random_from` (main.rs lines 1153-1156) with the drawn index explicit.
Rust's `gen_range(0..list.len())` always yields a valid index (and panics on
an empty list, which never happens in the program); the `% list.length`
makes the model total and is the identity on valid indices. -/
def random_from (idx : Nat) (list : List Move) : Move :=
  list.getD (idx % list.length) Move.Rock

/-- Mirror of `most_common`'s `max_by_key` fold (main.rs line 1163): Rust's
`Iterator::max_by_key` keeps the last maximum on ties, i.e. replaces the
accumulator whenever the new count is ≥ the accumulated one. `l` is the
buffer whose occurrence counts are compared. -/
def max_by_count_go (l : List Move) (acc : Move) : List Move → Move
  | [] => acc
  | m :: rest => max_by_count_go l (if l.count acc ≤ l.count m then m else acc) rest

/-- Mirror of `most_common` (main.rs lines 1158-1164): the frequency table over `list`
is scanned in the `HashMap` iteration order `ord` and the move with the
maximal count is returned (`None` on an empty table). -/
def most_common (ord : List Move) (list : List Move) : Option Move :=
  match ord with
  | [] => none
  | m :: rest => some (max_by_count_go list m rest)

/-- Mirror of `best_counter` (main.rs lines 1166-1180): the candidates that beat
`target` under the ruleset, with the defensive fallback to `target` itself
when no candidate exists. -/
def best_counter (idx : Nat) (ruleset : Ruleset) (target : Move) : Move :=
  let candidates := (Move.all_for_ruleset ruleset).filter
    (fun m => ruleset_beats ruleset m target)
  if candidates.isEmpty then target else random_from idx candidates

/-- The recent-buffer update at the top of `ai_move` (main.rs lines 1127-1130):
push, then `Vec::remove(0)` once the length exceeds 12. -/
def push_recent (recent : List Move) (m : Move) : List Move :=
  let r := recent ++ [m]
  if r.length > 12 then r.drop 1 else r

/-- Mirror of `ai_move` (main.rs lines 1126-1151), with the random draws taken from
`rand`. Returns the computer's move together with the updated state (the
Rust function mutates `state.human_recent` in place). `roll < 65` mirrors
`roll < 65` for `roll = gen_range(0..100)`. -/
def ai_move (rand : Rand) (state : MatchState) (human_move : Move) : Move × MatchState :=
  let recent := push_recent state.human_recent human_move
  let state' := { state with human_recent := recent }
  let rules := state.config.ruleset
  let all := Move.all_for_ruleset rules
  let diff := state.config.difficulty.getD Difficulty.Easy
  let mv := match diff with
    | .Easy => random_from rand.idx all
    | .Normal =>
        if rand.roll < 65 then random_from rand.idx all
        else best_counter rand.idx rules human_move
    | .Hard =>
        let predicted := (most_common rand.ord recent).getD human_move
        best_counter rand.idx rules predicted
  (mv, state')

/-- Mirror of `struct PlayerStats` (main.rs lines 283-288). -/
structure PlayerStats where
  matches_played : Nat
  matches_won : Nat
  rounds_won : Nat
deriving DecidableEq, Repr

/-- Mirror of `struct Scoreboard` (main.rs lines 290-293): the `HashMap<String,
PlayerStats>` is modelled as a function map. -/
structure Scoreboard where
  players : String → Option PlayerStats

/-- Point update of the scoreboard map (`HashMap` insertion / `get_mut`
write-back). -/
def Scoreboard.update (sb : Scoreboard) (name : String) (st : PlayerStats) : Scoreboard :=
  ⟨fun n => if n = name then some st else sb.players n⟩

/-- Mirror of `Scoreboard::ensure_player` (main.rs lines 309-313):
`entry(name).or_insert_with(PlayerStats::default)`. -/
def Scoreboard.ensure_player (sb : Scoreboard) (name : String) : Scoreboard :=
  match sb.players name with
  | some _ => sb
  | none => sb.update name ⟨0, 0, 0⟩

/-- Mirror of `Scoreboard::add_match_result` (main.rs lines 315-342). The source
`unwrap`s the two `get_mut` lookups, which cannot fail after `ensure_player`;
the `none` arms here are that unreachable case, left as the identity. -/
def Scoreboard.add_match_result (sb : Scoreboard) (p1 p2 : String)
    (winner : Option String) (p1_rounds p2_rounds : Nat) : Scoreboard :=
  let sb1 := (sb.ensure_player p1).ensure_player p2
  let sb2 := match sb1.players p1 with
    | some s1 => sb1.update p1 { s1 with
        matches_played := s1.matches_played + 1
        rounds_won := s1.rounds_won + p1_rounds }
    | none => sb1
  let sb3 := match sb2.players p2 with
    | some s2 => sb2.update p2 { s2 with
        matches_played := s2.matches_played + 1
        rounds_won := s2.rounds_won + p2_rounds }
    | none => sb2
  match winner with
  | some w =>
      match sb3.players w with
      | some sw => sb3.update w { sw with matches_won := sw.matches_won + 1 }
      | none => sb3
  | none => sb3

/-- ASCII lower-casing of a string, modelling `str::to_lowercase` on the
ASCII inputs the move parser deals with (`Char.toLower` lower-cases ASCII
letters). -/
def to_lower_str (s : String) : String :=
  ⟨s.data.map Char.toLower⟩

/-- Whitespace trimming over the character list, modelling `str::trim`. -/
def trim_str (s : String) : String :=
  ⟨((s.data.dropWhile Char.isWhitespace).reverse.dropWhile Char.isWhitespace).reverse⟩

/-- Mirror of `parse_move` (main.rs lines 1075-1084): trims and lower-cases the input
and maps the accepted tokens to moves; `lizard`/`spock` (and `l`/`k`) are
accepted only under the `Extended` ruleset, everything else yields `None`. -/
def parse_move (input : String) (ruleset : Ruleset) : Option Move :=
  let t := to_lower_str (trim_str input)
  if t = "rock" ∨ t = "r" then some Move.Rock
  else if t = "paper" ∨ t = "p" then some Move.Paper
  else if t = "scissors" ∨ t = "s" then some Move.Scissors
  else if (t = "lizard" ∨ t = "l") ∧ ruleset = Ruleset.Extended then some Move.Lizard
  else if (t = "spock" ∨ t = "k") ∧ ruleset = Ruleset.Extended then some Move.Spock
  else none

/-! Section: Concrete fixtures used by witnesses and counterexamples -/

/-- A Classic single-player configuration, as `new_game_setup` produces it
(player 2 is the computer, difficulty Hard). -/
def demoClassicHardConfig : GameConfig :=
  { player1 := "Alice"
    player2 := "Computer"
    mode := Mode.SinglePlayer
    ruleset := Ruleset.Classic
    format := MatchFormat.SingleRound
    difficulty := some Difficulty.Hard }

/-- A Classic multiplayer best-of-5 configuration. -/
def demoBestOf5Config : GameConfig :=
  { player1 := "Alice"
    player2 := "Bob"
    mode := Mode.Multiplayer
    ruleset := Ruleset.Classic
    format := MatchFormat.BestOfN 5
    difficulty := none }

/-- A Classic multiplayer first-to-5 configuration. -/
def demoFirstTo5Config : GameConfig :=
  { demoBestOf5Config with format := MatchFormat.FirstToK 5 }

/-- A best-of-5 match state in which player 1 has reached the 3-win
threshold. -/
def demoBestOf5State : MatchState :=
  { MatchState.new demoBestOf5Config with
    round_number := 5
    p1_round_wins := 3
    p2_round_wins := 1 }

/-- A Hard-tier single-player state whose recent buffer holds two Rocks. -/
def demoHardState : MatchState :=
  { MatchState.new demoClassicHardConfig with
    human_recent := [Move.Rock, Move.Rock] }

/-! Section: Helper lemmas -/

theorem apply_round_history (state : MatchState) (p1 p2 : Move) (w : RoundWinner) :
    (apply_round state p1 p2 w).history =
      state.history ++ [{ round := state.round_number, p1_move := p1, p2_move := p2, winner := w }] := by
  cases w <;> rfl

theorem apply_round_p1_wins (state : MatchState) (p1 p2 : Move) (w : RoundWinner) :
    (apply_round state p1 p2 w).p1_round_wins =
      state.p1_round_wins + (if w = RoundWinner.Player1 then 1 else 0) := by
  cases w <;> simp [apply_round]

theorem apply_round_p2_wins (state : MatchState) (p1 p2 : Move) (w : RoundWinner) :
    (apply_round state p1 p2 w).p2_round_wins =
      state.p2_round_wins + (if w = RoundWinner.Player2 then 1 else 0) := by
  cases w <;> simp [apply_round]

theorem apply_round_round_number (state : MatchState) (p1 p2 : Move) (w : RoundWinner) :
    (apply_round state p1 p2 w).round_number = state.round_number := by
  cases w <;> rfl

theorem advance_round_eq (state : MatchState) (p1 p2 : Move) :
    advance_round state p1 p2 =
      (decide_winner state.config.ruleset p1 p2,
        if check_match_winner
            (apply_round state p1 p2 (decide_winner state.config.ruleset p1 p2)) = none then
          { apply_round state p1 p2 (decide_winner state.config.ruleset p1 p2) with
            round_number :=
              (apply_round state p1 p2 (decide_winner state.config.ruleset p1 p2)).round_number + 1 }
        else
          apply_round state p1 p2 (decide_winner state.config.ruleset p1 p2)) := by
  unfold advance_round
  cases hc : check_match_winner
      (apply_round state p1 p2 (decide_winner state.config.ruleset p1 p2)) <;>
    simp [hc]

theorem tie_count_append (h : List RoundRecord) (r : RoundRecord) :
    tie_count (h ++ [r]) = tie_count h + (if r.winner = RoundWinner.Tie then 1 else 0) := by
  simp only [tie_count, List.filter_append, List.length_append]
  by_cases hw : r.winner = RoundWinner.Tie <;> simp [hw]

/-! Section: Claim theorems -/

/-- C1: for every ruleset, `resolve` on two equal legal moves is `Tie`, and
for every pair of distinct legal moves exactly one direction of the beats
relation holds — one argument order of `decide_winner` yields `Player1` and
the swapped order `Player2`. -/
theorem resolve_tournament :
    ∀ (rs : Ruleset) (a b : Move),
      a ∈ Move.all_for_ruleset rs → b ∈ Move.all_for_ruleset rs →
      decide_winner rs a a = RoundWinner.Tie ∧
      (a ≠ b →
        ((decide_winner rs a b = RoundWinner.Player1 ∧
          decide_winner rs b a = RoundWinner.Player2) ∨
         (decide_winner rs a b = RoundWinner.Player2 ∧
          decide_winner rs b a = RoundWinner.Player1)) ∧
        (ruleset_beats rs a b = true ↔ ¬ ruleset_beats rs b a = true)) := by
  decide

/-- Witness for `resolve_tournament` at Classic, Rock vs Scissors. -/
theorem resolve_tournament_witness :
    decide_winner Ruleset.Classic Move.Rock Move.Rock = RoundWinner.Tie ∧
    (Move.Rock ≠ Move.Scissors →
      ((decide_winner Ruleset.Classic Move.Rock Move.Scissors = RoundWinner.Player1 ∧
        decide_winner Ruleset.Classic Move.Scissors Move.Rock = RoundWinner.Player2) ∨
       (decide_winner Ruleset.Classic Move.Rock Move.Scissors = RoundWinner.Player2 ∧
        decide_winner Ruleset.Classic Move.Scissors Move.Rock = RoundWinner.Player1)) ∧
      (ruleset_beats Ruleset.Classic Move.Rock Move.Scissors = true ↔
        ¬ ruleset_beats Ruleset.Classic Move.Scissors Move.Rock = true)) :=
  resolve_tournament Ruleset.Classic Move.Rock Move.Scissors (by decide) (by decide)

/-- C9: on the Classic move set, `resolve` under Extended agrees with
`resolve` under Classic. -/
theorem extended_refines_classic :
    ∀ a b : Move,
      a ∈ Move.all_for_ruleset Ruleset.Classic →
      b ∈ Move.all_for_ruleset Ruleset.Classic →
      decide_winner Ruleset.Extended a b = decide_winner Ruleset.Classic a b := by
  decide

/-- Witness for `extended_refines_classic` at Rock vs Paper. -/
theorem extended_refines_classic_witness :
    decide_winner Ruleset.Extended Move.Rock Move.Paper =
      decide_winner Ruleset.Classic Move.Rock Move.Paper :=
  extended_refines_classic Move.Rock Move.Paper (by decide) (by decide)

/-- C2: `check_match_winner` returns — for `SingleRound` — `none` before any
round and the last round's outcome once exactly one round has been played;
for `BestOfN n` it thresholds both tallies at `n / 2 + 1`; for `FirstToK k`
it thresholds both tallies at `k`. -/
theorem check_match_winner_spec (state : MatchState) :
    (state.config.format = MatchFormat.SingleRound → state.history = [] →
      check_match_winner state = none) ∧
    (∀ r : RoundRecord, state.config.format = MatchFormat.SingleRound →
      state.history = [r] → check_match_winner state = some r.winner) ∧
    (∀ n : Nat, state.config.format = MatchFormat.BestOfN n →
      check_match_winner state =
        if state.p1_round_wins ≥ n / 2 + 1 then some RoundWinner.Player1
        else if state.p2_round_wins ≥ n / 2 + 1 then some RoundWinner.Player2
        else none) ∧
    (∀ k : Nat, state.config.format = MatchFormat.FirstToK k →
      check_match_winner state =
        if state.p1_round_wins ≥ k then some RoundWinner.Player1
        else if state.p2_round_wins ≥ k then some RoundWinner.Player2
        else none) := by
  refine ⟨fun h1 h2 => ?_, fun r h1 h2 => ?_, fun n h1 => ?_, fun k h1 => ?_⟩
  · simp [check_match_winner, h1, h2]
  · simp [check_match_winner, h1, h2]
  · simp [check_match_winner, h1]
  · simp [check_match_winner, h1]

/-- Witness for `check_match_winner_spec`: in a best-of-5 state with tallies
3-1, player 1 is the match winner. -/
theorem check_match_winner_spec_witness :
    check_match_winner demoBestOf5State = some RoundWinner.Player1 := by
  have h := (check_match_winner_spec demoBestOf5State).2.2.1 5 rfl
  simpa [demoBestOf5State, demoBestOf5Config, MatchState.new] using h

/-- A fresh first-to-5 match state. -/
def demoFirstTo5State : MatchState := MatchState.new demoFirstTo5Config

/-- C3: `advance_round` resolves the round through the rule engine,
increments exactly the winning player's tally (neither on a tie), appends
one `RoundRecord` carrying the current round index, and — whenever the match
is not complete after the round, i.e. whenever a next round exists — bumps
the round index to refer to that next round. -/
theorem advance_round_spec (state : MatchState) (p1 p2 : Move) :
    (advance_round state p1 p2).1 = decide_winner state.config.ruleset p1 p2 ∧
    (advance_round state p1 p2).2.p1_round_wins =
      state.p1_round_wins +
        (if decide_winner state.config.ruleset p1 p2 = RoundWinner.Player1 then 1 else 0) ∧
    (advance_round state p1 p2).2.p2_round_wins =
      state.p2_round_wins +
        (if decide_winner state.config.ruleset p1 p2 = RoundWinner.Player2 then 1 else 0) ∧
    (advance_round state p1 p2).2.history =
      state.history ++
        [{ round := state.round_number, p1_move := p1, p2_move := p2,
           winner := decide_winner state.config.ruleset p1 p2 }] ∧
    (check_match_winner
        (apply_round state p1 p2 (decide_winner state.config.ruleset p1 p2)) = none →
      (advance_round state p1 p2).2.round_number = state.round_number + 1) := by
  rw [advance_round_eq]
  by_cases hc : check_match_winner
      (apply_round state p1 p2 (decide_winner state.config.ruleset p1 p2)) = none <;>
    simp [hc, apply_round_p1_wins, apply_round_p2_wins, apply_round_history,
      apply_round_round_number]

/-- Witness for `advance_round_spec`: the first Rock-vs-Scissors round of a
first-to-5 match leaves the match running, so the round index advances. -/
theorem advance_round_spec_witness :
    (advance_round demoFirstTo5State Move.Rock Move.Scissors).2.round_number =
      demoFirstTo5State.round_number + 1 :=
  (advance_round_spec demoFirstTo5State Move.Rock Move.Scissors).2.2.2.2 (by decide)

/-! Tally-invariant helper lemmas for C5 (not claim theorems, so they may be
shared). -/

theorem apply_round_tally (state : MatchState) (p1 p2 : Move) (w : RoundWinner)
    (h : state.p1_round_wins + state.p2_round_wins + tie_count state.history =
      state.history.length) :
    (apply_round state p1 p2 w).p1_round_wins + (apply_round state p1 p2 w).p2_round_wins +
      tie_count (apply_round state p1 p2 w).history =
      (apply_round state p1 p2 w).history.length := by
  rw [apply_round_p1_wins, apply_round_p2_wins, apply_round_history, tie_count_append,
    List.length_append]
  cases w <;> simp <;> omega

theorem advance_round_snd_fields (state : MatchState) (p1 p2 : Move) :
    (advance_round state p1 p2).2.p1_round_wins =
      (apply_round state p1 p2 (decide_winner state.config.ruleset p1 p2)).p1_round_wins ∧
    (advance_round state p1 p2).2.p2_round_wins =
      (apply_round state p1 p2 (decide_winner state.config.ruleset p1 p2)).p2_round_wins ∧
    (advance_round state p1 p2).2.history =
      (apply_round state p1 p2 (decide_winner state.config.ruleset p1 p2)).history := by
  rw [advance_round_eq]
  by_cases hc : check_match_winner
      (apply_round state p1 p2 (decide_winner state.config.ruleset p1 p2)) = none <;>
    simp [hc]

theorem advance_round_tally (state : MatchState) (p1 p2 : Move)
    (h : state.p1_round_wins + state.p2_round_wins + tie_count state.history =
      state.history.length) :
    (advance_round state p1 p2).2.p1_round_wins + (advance_round state p1 p2).2.p2_round_wins +
      tie_count (advance_round state p1 p2).2.history =
      (advance_round state p1 p2).2.history.length := by
  obtain ⟨h1, h2, h3⟩ := advance_round_snd_fields state p1 p2
  rw [h1, h2, h3]
  exact apply_round_tally state p1 p2 _ h

theorem run_rounds_tally (moves : List (Move × Move)) (state : MatchState)
    (h : state.p1_round_wins + state.p2_round_wins + tie_count state.history =
      state.history.length) :
    (run_rounds state moves).p1_round_wins + (run_rounds state moves).p2_round_wins +
      tie_count (run_rounds state moves).history =
      (run_rounds state moves).history.length := by
  induction moves generalizing state with
  | nil => exact h
  | cons mp rest ih =>
      obtain ⟨p1, p2⟩ := mp
      exact ih (advance_round state p1 p2).2 (advance_round_tally state p1 p2 h)

/-- C5: after any sequence of `advance_round` calls from a fresh match state,
`p1_round_wins + p2_round_wins + (number of Tie records) = length of the
history`. -/
theorem tally_invariant (config : GameConfig) (moves : List (Move × Move)) :
    (run_rounds (MatchState.new config) moves).p1_round_wins +
      (run_rounds (MatchState.new config) moves).p2_round_wins +
      tie_count (run_rounds (MatchState.new config) moves).history =
      (run_rounds (MatchState.new config) moves).history.length := by
  refine run_rounds_tally moves (MatchState.new config) ?_
  simp [MatchState.new, tie_count]

/-- C4 counterexample: `advance_round` called with `Spock` under the Classic
ruleset is not rejected — no error is produced anywhere in the engine — and
the round IS resolved: `decide_winner` finds no `classic_beats` entry for
`Spock`, silently awards the round to player 2, and the record is appended. -/
theorem invalid_move_not_rejected_cex :
    Move.Spock ∉ Move.all_for_ruleset Ruleset.Classic ∧
    (advance_round (MatchState.new demoClassicHardConfig) Move.Spock Move.Rock).1 =
      RoundWinner.Player2 ∧
    (advance_round (MatchState.new demoClassicHardConfig) Move.Spock Move.Rock).2.history.length
      = 1 := by
  decide

/-- C4 amended: illegal moves are screened out at the input boundary, not
inside the engine: `parse_move` only ever yields members of the active
ruleset's legal move set (an illegal token such as `spock` under Classic
parses to `none` and the prompt loop re-asks), so an illegal move never
reaches `advance_round`; the engine itself performs no legality check. -/
theorem parse_move_legal :
    ∀ (input : String) (rs : Ruleset) (m : Move),
      parse_move input rs = some m → m ∈ Move.all_for_ruleset rs := by
  intro input rs m h
  simp only [parse_move] at h
  split_ifs at h with h1 h2 h3 h4 h5
  · injection h with h'; subst h'; cases rs <;> decide
  · injection h with h'; subst h'; cases rs <;> decide
  · injection h with h'; subst h'; cases rs <;> decide
  · obtain ⟨-, hrs⟩ := h4
    subst hrs; injection h with h'; subst h'; decide
  · obtain ⟨-, hrs⟩ := h5
    subst hrs; injection h with h'; subst h'; decide

/-- Witness for `parse_move_legal` on the token `"rock"` under Classic. -/
theorem parse_move_legal_witness : Move.Rock ∈ Move.all_for_ruleset Ruleset.Classic :=
  parse_move_legal "rock" Ruleset.Classic Move.Rock (by decide)

/-- C10: merging a match result whose two participant names coincide hits a
single scoreboard entry, which receives `matches_played + 2` and
`rounds_won + (p1_rounds + p2_rounds)` (and `matches_won + 1` exactly when
that shared name is the winner), instead of per-participant increments on
two distinct entries. -/
theorem add_match_result_same_name (sb : Scoreboard) (n : String)
    (w : Option String) (r1 r2 : Nat) :
    (sb.add_match_result n n w r1 r2).players n =
      some { matches_played := ((sb.players n).getD ⟨0, 0, 0⟩).matches_played + 2
             matches_won := ((sb.players n).getD ⟨0, 0, 0⟩).matches_won +
               (if w = some n then 1 else 0)
             rounds_won := ((sb.players n).getD ⟨0, 0, 0⟩).rounds_won + r1 + r2 } := by
  cases hs : sb.players n with
  | none =>
      cases w with
      | none =>
          simp [Scoreboard.add_match_result, Scoreboard.ensure_player, Scoreboard.update, hs]
      | some ws =>
          by_cases hws : ws = n
          · subst hws
            simp [Scoreboard.add_match_result, Scoreboard.ensure_player, Scoreboard.update, hs]
          · cases hw2 : sb.players ws <;>
              simp [Scoreboard.add_match_result, Scoreboard.ensure_player, Scoreboard.update,
                hs, hw2, hws, Ne.symm hws]
  | some e =>
      cases w with
      | none =>
          simp [Scoreboard.add_match_result, Scoreboard.ensure_player, Scoreboard.update, hs]
      | some ws =>
          by_cases hws : ws = n
          · subst hws
            simp [Scoreboard.add_match_result, Scoreboard.ensure_player, Scoreboard.update, hs]
          · cases hw2 : sb.players ws <;>
              simp [Scoreboard.add_match_result, Scoreboard.ensure_player, Scoreboard.update,
                hs, hw2, hws, Ne.symm hws]

/-! Helper lemmas about the opponent-policy primitives. -/

theorem max_by_count_go_mem (l : List Move) (rest : List Move) :
    ∀ acc, max_by_count_go l acc rest = acc ∨ max_by_count_go l acc rest ∈ rest := by
  induction rest with
  | nil => intro acc; exact Or.inl rfl
  | cons m ms ih =>
      intro acc
      rw [max_by_count_go]
      rcases ih (if l.count acc ≤ l.count m then m else acc) with h | h
      · rw [h]
        by_cases hc : l.count acc ≤ l.count m
        · simp [hc]
        · simp [hc]
      · exact Or.inr (List.mem_cons_of_mem m h)

theorem max_by_count_go_le (l : List Move) (rest : List Move) :
    ∀ acc, l.count acc ≤ l.count (max_by_count_go l acc rest) ∧
      ∀ m ∈ rest, l.count m ≤ l.count (max_by_count_go l acc rest) := by
  induction rest with
  | nil => intro acc; exact ⟨le_refl _, by simp⟩
  | cons m ms ih =>
      intro acc
      rw [max_by_count_go]
      obtain ⟨h1, h2⟩ := ih (if l.count acc ≤ l.count m then m else acc)
      by_cases hc : l.count acc ≤ l.count m
      · refine ⟨hc.trans (by simpa [hc] using h1), fun x hx => ?_⟩
        rcases List.mem_cons.mp hx with rfl | hx'
        · simpa [hc] using h1
        · exact h2 x hx'
      · refine ⟨by simpa [hc] using h1, fun x hx => ?_⟩
        rcases List.mem_cons.mp hx with rfl | hx'
        · exact (le_of_not_le hc).trans (by simpa [hc] using h1)
        · exact h2 x hx'

theorem most_common_mem (ord l : List Move) (r : Move)
    (h : most_common ord l = some r) : r ∈ ord := by
  cases ord with
  | nil => exact Option.noConfusion h
  | cons m rest =>
      rw [most_common] at h
      injection h with h'
      rcases max_by_count_go_mem l rest m with hm | hm
      · rw [← h', hm]; exact List.mem_cons_self m rest
      · rw [← h']; exact List.mem_cons_of_mem m hm

theorem most_common_maximal (ord l : List Move) (r : Move)
    (h : most_common ord l = some r) (hcov : ∀ m ∈ l, m ∈ ord) :
    ∀ m : Move, l.count m ≤ l.count r := by
  intro m
  by_cases hm : m ∈ l
  · cases ord with
    | nil => exact Option.noConfusion h
    | cons m0 rest =>
        rw [most_common] at h
        injection h with h'
        obtain ⟨h1, h2⟩ := max_by_count_go_le l rest m0
        rcases List.mem_cons.mp (hcov m hm) with rfl | hx
        · rw [← h']; exact h1
        · rw [← h']; exact h2 m hx
  · rw [List.count_eq_zero_of_not_mem hm]
    exact Nat.zero_le _

theorem random_from_mem (idx : Nat) (l : List Move) (h : l ≠ []) :
    random_from idx l ∈ l := by
  have hlen : 0 < l.length := List.length_pos.mpr h
  have hlt : idx % l.length < l.length := Nat.mod_lt _ hlen
  rw [random_from, List.getD_eq_getElem l _ hlt]
  exact List.getElem_mem hlt

theorem best_counter_mem_candidates (idx : Nat) (rs : Ruleset) (t : Move)
    (h : (Move.all_for_ruleset rs).filter (fun m => ruleset_beats rs m t) ≠ []) :
    best_counter idx rs t ∈
      (Move.all_for_ruleset rs).filter (fun m => ruleset_beats rs m t) := by
  rw [best_counter]
  rw [if_neg (by simpa [List.isEmpty_iff] using h)]
  exact random_from_mem _ _ h

theorem best_counter_legal (idx : Nat) (rs : Ruleset) (t : Move)
    (h : t ∈ Move.all_for_ruleset rs) :
    best_counter idx rs t ∈ Move.all_for_ruleset rs := by
  rw [best_counter]
  by_cases he : ((Move.all_for_ruleset rs).filter (fun m => ruleset_beats rs m t)).isEmpty
  · rw [if_pos he]; exact h
  · rw [if_neg he]
    exact List.mem_of_mem_filter
      (random_from_mem _ _ (by simpa [List.isEmpty_iff] using he))

theorem push_recent_subset (recent : List Move) (m x : Move)
    (h : x ∈ push_recent recent m) : x ∈ recent ++ [m] := by
  simp only [push_recent] at h
  split at h
  · exact List.drop_subset 1 (recent ++ [m]) h
  · exact h

theorem push_recent_mem_self (recent : List Move) (m : Move) :
    m ∈ push_recent recent m := by
  simp only [push_recent]
  split
  · next hlen =>
      have h12 : 1 ≤ recent.length := by
        simp only [List.length_append, List.length_cons, List.length_nil] at hlen
        omega
      rw [List.drop_append_of_le_length h12]
      exact List.mem_append_right _ (List.mem_cons_self m [])
  · exact List.mem_append_right _ (List.mem_cons_self m [])

theorem beaters_nonempty :
    ∀ (rs : Ruleset) (t : Move), t ∈ Move.all_for_ruleset rs →
      (Move.all_for_ruleset rs).filter (fun m => ruleset_beats rs m t) ≠ [] := by
  decide

/-- C6 counterexample: under Classic at the Hard tier, feeding the illegal
move `Spock` as the just-played human move makes the policy predict `Spock`
(the recent buffer holds only that move, so the modelled iteration order is
necessarily `[Spock]`), no Classic move beats `Spock` under `classic_beats`,
and `best_counter`'s defensive fallback returns the target itself — so the
chosen move is `Spock`, which is not a legal Classic move. -/
theorem choose_move_illegal_cex :
    (ai_move ⟨0, 0, [Move.Spock]⟩ (MatchState.new demoClassicHardConfig) Move.Spock).1 =
      Move.Spock ∧
    Move.Spock ∉ Move.all_for_ruleset Ruleset.Classic := by
  decide

/-- C6 amended: whenever the just-played human move and every move in the
recent buffer are legal for the active ruleset (which is the caller contract
and holds on every reachable state, since moves enter via `parse_move` and
the buffer is cleared on every ruleset change), `ai_move` returns a member
of `legal_moves(ruleset)` under every difficulty tier and every outcome of
the random draws. `rand.ord` ranges over the iteration orders of the
frequency table, whose keys all occur in the scanned buffer. -/
theorem choose_move_legal (rand : Rand) (state : MatchState) (human : Move)
    (hh : human ∈ Move.all_for_ruleset state.config.ruleset)
    (hrec : ∀ m ∈ state.human_recent, m ∈ Move.all_for_ruleset state.config.ruleset)
    (hord : ∀ m ∈ rand.ord, m ∈ push_recent state.human_recent human) :
    (ai_move rand state human).1 ∈ Move.all_for_ruleset state.config.ruleset := by
  have hall : Move.all_for_ruleset state.config.ruleset ≠ [] := by
    cases hrs : state.config.ruleset <;> simp [Move.all_for_ruleset]
  have hpush : ∀ x ∈ push_recent state.human_recent human,
      x ∈ Move.all_for_ruleset state.config.ruleset := by
    intro x hx
    rcases List.mem_append.mp (push_recent_subset _ _ _ hx) with h | h
    · exact hrec x h
    · simp only [List.mem_singleton] at h
      subst h; exact hh
  cases hd : state.config.difficulty.getD Difficulty.Easy with
  | Easy =>
      simp only [ai_move, hd]
      exact random_from_mem _ _ hall
  | Normal =>
      simp only [ai_move, hd]
      by_cases hr : rand.roll < 65
      · simp only [if_pos hr]
        exact random_from_mem _ _ hall
      · simp only [if_neg hr]
        exact best_counter_legal _ _ _ hh
  | Hard =>
      simp only [ai_move, hd]
      cases hm : most_common rand.ord (push_recent state.human_recent human) with
      | none => simpa [hm] using best_counter_legal rand.idx _ _ hh
      | some r =>
          have hr : r ∈ Move.all_for_ruleset state.config.ruleset :=
            hpush r (hord r (most_common_mem _ _ _ hm))
          simpa [hm] using best_counter_legal rand.idx _ _ hr

/-- Witness for `choose_move_legal` at the Hard tier under Classic with a
Rock-heavy buffer. -/
theorem choose_move_legal_witness :
    (ai_move ⟨0, 0, [Move.Rock]⟩ demoHardState Move.Rock).1 ∈
      Move.all_for_ruleset demoHardState.config.ruleset :=
  choose_move_legal ⟨0, 0, [Move.Rock]⟩ demoHardState Move.Rock (by decide) (by decide)
    (by decide)

/-- C7: at the Hard tier (with legal inputs, and `rand.ord` any iteration
order of the frequency table over the updated buffer), the predicted move is
a maximal-frequency element of the buffer, the chosen move is a member of
the set of moves that beat the prediction under the active ruleset, and with
an empty buffer the prediction falls back to the move the human just
played. -/
theorem hard_policy (rand : Rand) (state : MatchState) (human : Move)
    (hdiff : state.config.difficulty = some Difficulty.Hard)
    (hh : human ∈ Move.all_for_ruleset state.config.ruleset)
    (hrec : ∀ m ∈ state.human_recent, m ∈ Move.all_for_ruleset state.config.ruleset)
    (hcov : ∀ m ∈ push_recent state.human_recent human, m ∈ rand.ord)
    (hmem : ∀ m ∈ rand.ord, m ∈ push_recent state.human_recent human) :
    ∃ predicted : Move,
      (most_common rand.ord (push_recent state.human_recent human)).getD human = predicted ∧
      predicted ∈ push_recent state.human_recent human ∧
      (∀ m : Move, (push_recent state.human_recent human).count m ≤
        (push_recent state.human_recent human).count predicted) ∧
      (state.human_recent = [] → predicted = human) ∧
      (ai_move rand state human).1 ∈
        (Move.all_for_ruleset state.config.ruleset).filter
          (fun m => ruleset_beats state.config.ruleset m predicted) := by
  have hord_ne : rand.ord ≠ [] := by
    intro h0
    exact absurd (hcov human (push_recent_mem_self _ _)) (by simp [h0])
  obtain ⟨r, hr⟩ : ∃ r, most_common rand.ord (push_recent state.human_recent human) = some r := by
    cases ho : rand.ord with
    | nil => exact absurd ho hord_ne
    | cons m0 rest => exact ⟨_, by rw [most_common]⟩
  refine ⟨r, by rw [hr]; rfl, hmem r (most_common_mem _ _ _ hr),
    most_common_maximal _ _ _ hr hcov, ?_, ?_⟩
  · intro hempty
    have := hmem r (most_common_mem _ _ _ hr)
    rw [hempty] at this
    simpa [push_recent] using this
  · have hrlegal : r ∈ Move.all_for_ruleset state.config.ruleset := by
      rcases List.mem_append.mp
        (push_recent_subset _ _ _ (hmem r (most_common_mem _ _ _ hr))) with h | h
      · exact hrec r h
      · simp only [List.mem_singleton] at h
        subst h; exact hh
    simp only [ai_move, hdiff, Option.getD_some, hr]
    exact best_counter_mem_candidates rand.idx _ _
      (beaters_nonempty _ _ hrlegal)

/-- Witness for `hard_policy`: with the buffer `[Rock, Rock]` and a third
Rock just played the Hard policy predicts Rock and, under Classic, answers
Paper. -/
theorem hard_policy_witness :
    (∃ predicted : Move,
      (most_common (Rand.mk 0 0 [Move.Rock]).ord
          (push_recent demoHardState.human_recent Move.Rock)).getD Move.Rock = predicted ∧
      predicted ∈ push_recent demoHardState.human_recent Move.Rock ∧
      (∀ m : Move, (push_recent demoHardState.human_recent Move.Rock).count m ≤
        (push_recent demoHardState.human_recent Move.Rock).count predicted) ∧
      (demoHardState.human_recent = [] → predicted = Move.Rock) ∧
      (ai_move ⟨0, 0, [Move.Rock]⟩ demoHardState Move.Rock).1 ∈
        (Move.all_for_ruleset demoHardState.config.ruleset).filter
          (fun m => ruleset_beats demoHardState.config.ruleset m predicted)) ∧
    (ai_move ⟨0, 0, [Move.Rock]⟩ demoHardState Move.Rock).1 = Move.Paper :=
  ⟨hard_policy ⟨0, 0, [Move.Rock]⟩ demoHardState Move.Rock rfl (by decide) (by decide)
      (by decide) (by decide),
    by decide⟩

/-- A fixed sequence of 20 appended moves. -/
def demo20 : List Move :=
  [Move.Rock, Move.Paper, Move.Scissors, Move.Rock, Move.Paper, Move.Scissors, Move.Rock,
   Move.Paper, Move.Scissors, Move.Rock, Move.Paper, Move.Scissors, Move.Rock, Move.Paper,
   Move.Scissors, Move.Rock, Move.Paper, Move.Scissors, Move.Rock, Move.Paper]

theorem foldl_push_recent_drop (ms : List Move) :
    List.foldl push_recent [] ms = ms.drop (ms.length - 12) := by
  induction ms using List.reverseRecOn with
  | nil => rfl
  | append_singleton xs x ih =>
      rw [List.foldl_append, List.foldl_cons, List.foldl_nil, ih]
      by_cases hlen : xs.length ≤ 11
      · have h0 : xs.length - 12 = 0 := by omega
        have h1 : (xs ++ [x]).length - 12 = 0 := by
          simp only [List.length_append, List.length_cons, List.length_nil]
          omega
        rw [h0, List.drop_zero, h1, List.drop_zero]
        simp only [push_recent]
        rw [if_neg (by simp only [List.length_append, List.length_cons, List.length_nil]; omega)]
      · have h12 : 12 ≤ xs.length := by omega
        have hlength : (xs.drop (xs.length - 12)).length = 12 := by
          rw [List.length_drop]; omega
        have hcond : (xs.drop (xs.length - 12) ++ [x]).length > 12 := by
          simp only [List.length_append, List.length_cons, List.length_nil, hlength]
          omega
        have hone : 1 ≤ (xs.drop (xs.length - 12)).length := by omega
        have hle : (xs ++ [x]).length - 12 ≤ xs.length := by
          simp only [List.length_append, List.length_cons, List.length_nil]
          omega
        simp only [push_recent]
        rw [if_pos hcond, List.drop_append_of_le_length hone, List.drop_drop,
          List.drop_append_of_le_length hle]
        have harith : xs.length - 12 + 1 = (xs ++ [x]).length - 12 := by
          simp only [List.length_append, List.length_cons, List.length_nil]
          omega
        rw [harith]

/-- C8: the recent-moves buffer built by successive `push_recent` appends
from empty always holds exactly the most recent moves in insertion order —
it equals the suffix of the appended sequence past `length - 12` — hence
never exceeds 12 elements, and after the 20 appends of `demo20` it has
length exactly 12 and holds the last 12 moves in order. -/
theorem human_recent_bound :
    (∀ ms : List Move, List.foldl push_recent [] ms = ms.drop (ms.length - 12)) ∧
    (∀ ms : List Move, (List.foldl push_recent [] ms).length ≤ 12) ∧
    List.foldl push_recent [] demo20 = demo20.drop 8 ∧
    (List.foldl push_recent [] demo20).length = 12 := by
  refine ⟨foldl_push_recent_drop, fun ms => ?_, by decide, by decide⟩
  rw [foldl_push_recent_drop, List.length_drop]
  omega

end RPS
